import Mathlib

/-!
Verification development for the `localhost` HTTP/1.1 server (Rust).

Shallow embedding conventions:
* Rust `String`/`str` and `Vec<u8>` are both modelled as `List Char`, one
  `Char` per byte.  All inputs exercised by the theorems are ASCII, where
  Rust UTF-8 decoding is the identity; theorems about start-line parsing
  note this restriction in their statements or doc comments.
* `HashMap<String, Vec<String>>` (header container) is modelled as an
  association list that preserves insertion order.  The Rust map has
  arbitrary iteration order; every theorem below is order-insensitive
  except where a doc comment says otherwise.
* Fallible Rust functions returning `Result` are modelled with `Except`
  carrying the error message bytes.
* Wall-clock instants are modelled as natural numbers (seconds).
-/

/-- Byte string of a Lean string literal (ASCII contents only are used). -/
def bytes (s : String) : List Char := s.data

/-- CRLF byte pair, `common/constants.rs` `CRLF_BYTES`. -/
def crlfB : List Char := [Char.ofNat 13, Char.ofNat 10]

/-- Rust `u8::to_ascii_lowercase` / `char::to_ascii_lowercase`. -/
def asciiLower (c : Char) : Char :=
  if 65 ≤ c.toNat ∧ c.toNat ≤ 90 then Char.ofNat (c.toNat + 32) else c

/-- ASCII-case-folded string, models `str::to_lowercase` on ASCII data and
the byte comparison inside `eq_ignore_ascii_case`. -/
def lowerStr (s : List Char) : List Char := s.map asciiLower

/-- Rust `str::eq_ignore_ascii_case`. -/
def eqIgnoreCase (a b : List Char) : Bool := lowerStr a == lowerStr b

/-- Rust `char::is_whitespace` restricted to the ASCII range
(space, tab, line feed, vertical tab, form feed, carriage return). -/
def isWsChar (c : Char) : Bool :=
  c.toNat = 32 ∨ c.toNat = 9 ∨ c.toNat = 10 ∨ c.toNat = 11 ∨ c.toNat = 12 ∨ c.toNat = 13

/-- Rust `str::split_whitespace`: split on whitespace runs, no empty items. -/
def splitWs (s : List Char) : List (List Char) :=
  (List.splitOnP isWsChar s).filter (· ≠ [])

/-- Rust `str::trim` (ASCII whitespace; the theorems only exercise ASCII). -/
def trimStr (s : List Char) : List Char :=
  (s.dropWhile isWsChar).reverse.dropWhile isWsChar |>.reverse

/-- Decimal rendering of a natural number, models integer `Display`. -/
def natStr (n : Nat) : List Char := (Nat.repr n).data

/-- Lowercase hex rendering, models Rust format `{:x}`. -/
def hexStr (n : Nat) : List Char := Nat.toDigits 16 n

/-- Does `seg` occur contiguously inside `l`?  (Used to state that a byte
sequence appears in serializer output.) -/
def containsSeg (seg l : List Char) : Bool :=
  (List.range (l.length + 1)).any fun i => List.isPrefixOf seg (l.drop i)

/-- HTTP method, `http/method.rs` (nine verbs). -/
inductive Method where
  | GET | POST | DELETE | PUT | PATCH | HEAD | OPTIONS | TRACE | CONNECT
  deriving DecidableEq, Repr

/-- `Method::from_str`, `http/method.rs` lines 55-72. -/
def Method.fromStr (s : List Char) : Option Method :=
  if s = bytes "GET" then some .GET
  else if s = bytes "POST" then some .POST
  else if s = bytes "DELETE" then some .DELETE
  else if s = bytes "PUT" then some .PUT
  else if s = bytes "PATCH" then some .PATCH
  else if s = bytes "HEAD" then some .HEAD
  else if s = bytes "OPTIONS" then some .OPTIONS
  else if s = bytes "TRACE" then some .TRACE
  else if s = bytes "CONNECT" then some .CONNECT
  else none

/-- `Method::allows_body`: POST, PUT and PATCH may carry a body. -/
def Method.allowsBody : Method → Bool
  | .POST | .PUT | .PATCH => true
  | _ => false

/-- HTTP version, `http/version.rs`. -/
inductive Version where
  | http09 | http10 | http11
  deriving DecidableEq, Repr

/-- `Version::from_str`, `http/version.rs` lines 59-70: the three literals
`HTTP/0.9`, `HTTP/1.0` and `HTTP/1.1` are accepted. -/
def Version.fromStr (s : List Char) : Option Version :=
  if s = bytes "HTTP/0.9" then some .http09
  else if s = bytes "HTTP/1.0" then some .http10
  else if s = bytes "HTTP/1.1" then some .http11
  else none

/-- `Version::supports_keep_alive`, `http/version.rs` lines 31-34. -/
def Version.supportsKeepAlive : Version → Bool
  | .http10 | .http11 => true
  | .http09 => false

/-- `Display` for `Version`. -/
def Version.render : Version → List Char
  | .http09 => bytes "HTTP/0.9"
  | .http10 => bytes "HTTP/1.0"
  | .http11 => bytes "HTTP/1.1"

/-- `StatusCode::is_informational` (1xx), `http/status.rs`. -/
def isInformational (code : Nat) : Bool := 100 ≤ code ∧ code < 200

/-- `StatusCode::allows_body`, `http/status.rs` lines 47-51: body allowed
unless the status is 1xx, 204 or 304. -/
def allowsBody (code : Nat) : Bool :=
  !isInformational code && code ≠ 204 && code ≠ 304

/-- `StatusCode::reason_phrase`, `http/status.rs` lines 54-74. -/
def reasonPhrase (code : Nat) : List Char :=
  if code = 200 then bytes "OK"
  else if code = 201 then bytes "Created"
  else if code = 204 then bytes "No Content"
  else if code = 301 then bytes "Moved Permanently"
  else if code = 302 then bytes "Found"
  else if code = 304 then bytes "Not Modified"
  else if code = 400 then bytes "Bad Request"
  else if code = 403 then bytes "Forbidden"
  else if code = 404 then bytes "Not Found"
  else if code = 405 then bytes "Method Not Allowed"
  else if code = 413 then bytes "Payload Too Large"
  else if code = 500 then bytes "Internal Server Error"
  else if code = 501 then bytes "Not Implemented"
  else if code = 502 then bytes "Bad Gateway"
  else if code = 503 then bytes "Service Unavailable"
  else if code = 504 then bytes "Gateway Timeout"
  else bytes "Unknown"

/-- Header container, `http/headers.rs`: `HashMap<String, Vec<String>>`
modelled as an insertion-ordered association list with distinct keys. -/
abbrev Headers := List (List Char × List (List Char))

/-- `Headers::get`: first case-insensitive key match, first value. -/
def headersGet (h : Headers) (name : List Char) : Option (List Char) :=
  (h.find? fun e => lowerStr e.1 == lowerStr name).bind fun e => e.2.head?

/-- `Headers::add`: append the value under the exact key, creating the
entry when absent (mirrors `HashMap::entry(..).or_insert(..).push`). -/
def headersAdd (h : Headers) (name v : List Char) : Headers :=
  match h with
  | [] => [(name, [v])]
  | e :: rest =>
    if e.1 = name then (e.1, e.2 ++ [v]) :: rest
    else e :: headersAdd rest name v

/-- `Headers::set`: replace the value under the exact key (HashMap insert). -/
def headersSet (h : Headers) (name v : List Char) : Headers :=
  match h with
  | [] => [(name, [v])]
  | e :: rest =>
    if e.1 = name then (name, [v]) :: rest
    else e :: headersSet rest name v

/-- `Headers::remove`: drop the first entry whose key matches
case-insensitively (the Rust code looks up one matching key and removes it). -/
def headersRemove (h : Headers) (name : List Char) : Headers :=
  match h with
  | [] => []
  | e :: rest =>
    if lowerStr e.1 == lowerStr name then rest
    else e :: headersRemove rest name

/-- `Headers::contains`: any case-insensitive key match. -/
def headersContains (h : Headers) (name : List Char) : Bool :=
  h.any fun e => lowerStr e.1 == lowerStr name

/-- `Headers::from_lines`, `http/headers.rs` lines 86-105: each line splits
at its first colon into a trimmed name (must be non-empty) and value. -/
def headersFromLines (lines : List (List Char)) : Except (List Char) Headers :=
  go [] lines
where
  go (acc : Headers) : List (List Char) → Except (List Char) Headers
  | [] => .ok acc
  | l :: rest =>
    match l.findIdx? (· == ':') with
    | none => .error (bytes "Invalid header format")
    | some i =>
      let n := trimStr (l.take i)
      let v := trimStr (l.drop (i + 1))
      if n = [] then .error (bytes "Invalid header format")
      else go (headersAdd acc n v) rest

/-- `Headers::to_string`: one `Name: Value` CRLF line per stored value. -/
def headersRender (h : Headers) : List Char :=
  h.foldl (fun acc e =>
    acc ++ e.2.foldl (fun a v => a ++ e.1 ++ bytes ": " ++ v ++ crlfB) []) []

/-- Parsed HTTP request, `http/request.rs` (query-parameter map included
for structural fidelity; the claims below never inspect it). -/
structure Request where
  method : Method
  target : List Char
  version : Version
  headers : Headers
  body : List Char
  queryParams : List (List Char × List Char)
  deriving DecidableEq, Repr

/-- `Request::new`: empty headers, body and query map. -/
def Request.new (m : Method) (t : List Char) (v : Version) : Request :=
  ⟨m, t, v, [], [], []⟩

/-- `Request::path`: target up to the first question mark. -/
def Request.path (r : Request) : List Char := r.target.takeWhile (· ≠ '?')

/-- `Request::connection`: the `Connection` header, first value. -/
def Request.connection (r : Request) : Option (List Char) :=
  headersGet r.headers (bytes "Connection")

/-- `Request::should_keep_alive`, `http/request.rs` lines 102-107. -/
def Request.shouldKeepAlive (r : Request) : Bool :=
  match r.connection with
  | some c => eqIgnoreCase c (bytes "keep-alive")
  | none => r.version.supportsKeepAlive

/-- `Request::is_chunked`: `Transfer-Encoding` equals `chunked`
case-insensitively. -/
def Request.isChunked (r : Request) : Bool :=
  match headersGet r.headers (bytes "Transfer-Encoding") with
  | some v => eqIgnoreCase v (bytes "chunked")
  | none => false

/-- HTTP response, `http/response.rs`. -/
structure Response where
  version : Version
  status : Nat
  headers : Headers
  body : List Char
  chunked : Bool
  deriving DecidableEq, Repr

/-- `Response::new` with `set_default_headers`: a `Server` header is always
injected; the `Date` header value depends on the wall clock, so it is passed
in as `date?` (absent models a pre-epoch clock where the source skips it). -/
def Response.new (v : Version) (st : Nat) (date? : Option (List Char)) : Response :=
  let h : Headers := headersSet [] (bytes "Server") (bytes "localhost/0.1.0")
  let h := match date? with
    | some d => headersSet h (bytes "Date") d
    | none => h
  ⟨v, st, h, [], false⟩

/-- `Response::set_content_length`. -/
def Response.setContentLength (r : Response) (n : Nat) : Response :=
  { r with headers := headersSet r.headers (bytes "Content-Length") (natStr n) }

/-- `Response::set_body`: store the body and, unless chunked, refresh
`Content-Length`. -/
def Response.setBody (r : Response) (b : List Char) : Response :=
  let r1 := { r with body := b }
  if r1.chunked then r1 else r1.setContentLength b.length

/-- `Response::set_body_str`. -/
def Response.setBodyStr (r : Response) (s : String) : Response :=
  r.setBody s.data

/-- `Response::set_chunked`, `http/response.rs` lines 178-183: set the flag,
set `Transfer-Encoding: chunked`, remove `Content-Length`. -/
def Response.setChunked (r : Response) : Response :=
  { r with
    chunked := true
    headers := headersRemove
      (headersSet r.headers (bytes "Transfer-Encoding") (bytes "chunked"))
      (bytes "Content-Length") }

/-- `Response::has_body`: status allows a body and the body is non-empty. -/
def Response.hasBody (r : Response) : Bool :=
  allowsBody r.status && !(r.body == [])

/-- Status line emitted by `ResponseSerializer::write_status_line`. -/
def statusLine (r : Response) : List Char :=
  r.version.render ++ [' '] ++ natStr r.status ++ [' ']
    ++ reasonPhrase r.status ++ crlfB

/-- `ResponseSerializer::serialize`, `http/serializer.rs` lines 25-44:
status line, header lines, blank line, then the body when `has_body`. -/
def serializeResp (r : Response) : List Char :=
  statusLine r ++ headersRender r.headers ++ crlfB
    ++ (if r.hasBody then r.body else [])

/-- `ResponseSerializer::serialize_chunked`, `http/serializer.rs` lines
47-75: status line, headers, blank line; if the body is non-empty one
hex-sized chunk carrying the whole body; then the terminating `0 CRLF CRLF`.
Note that the body is emitted whenever non-empty, with no status check. -/
def serializeChunkedResp (r : Response) : List Char :=
  statusLine r ++ headersRender r.headers ++ crlfB
    ++ (if r.body ≠ [] then hexStr r.body.length ++ crlfB ++ r.body ++ crlfB else [])
    ++ ['0'] ++ crlfB ++ crlfB

/-- `ResponseSerializer::serialize_auto`. -/
def serializeAuto (r : Response) : List Char :=
  if r.chunked then serializeChunkedResp r else serializeResp r

/-- `Response::ok` with a message body (`set_body_str`). -/
def Response.okWithMessage (v : Version) (date? : Option (List Char)) (msg : String) : Response :=
  (Response.new v 200 date?).setBodyStr msg

/-- `Response::not_found_with_message`. -/
def Response.notFoundWithMessage (v : Version) (date? : Option (List Char)) (msg : String) : Response :=
  (Response.new v 404 date?).setBodyStr msg

/-- `Response::forbidden_with_message`. -/
def Response.forbiddenWithMessage (v : Version) (date? : Option (List Char)) (msg : String) : Response :=
  (Response.new v 403 date?).setBodyStr msg

/-- `Response::internal_error_with_message`. -/
def Response.internalErrorWithMessage (v : Version) (date? : Option (List Char)) (msg : String) : Response :=
  (Response.new v 500 date?).setBodyStr msg

/-- Parser state machine, `http/parser.rs` `ParseState`. -/
inductive ParseState where
  | requestLine
  | headersPhase
  | bodyPhase
  | chunkedBody
  | complete
  | errState (msg : List Char)
  deriving DecidableEq, Repr

/-- Incremental request parser state, `http/parser.rs` `RequestParser`. -/
structure RequestParser where
  state : ParseState
  buffer : List Char
  request : Option Request
  expectedBodySize : Option Nat
  headerLines : List (List Char)
  maxBodySize : Nat
  currentBodySize : Nat
  deriving DecidableEq, Repr

/-- `RequestParser::with_max_body_size`. -/
def RequestParser.withMaxBodySize (m : Nat) : RequestParser :=
  ⟨.requestLine, [], none, none, [], m, 0⟩

/-- Error message produced by `check_would_exceed_limit`. -/
def wouldExceedMsg (maxSize : Nat) : List Char :=
  bytes "Request body size would exceed maximum allowed size " ++ natStr maxSize

/-- Result of `RequestParser::add_data`: the parser state afterwards plus
the error, if any (the Rust method mutates `self` and returns `Result`). -/
structure AddOut where
  parser : RequestParser
  err : Option (List Char)
  deriving DecidableEq, Repr

/-- `RequestParser::add_data`, `http/parser.rs` lines 87-119.  In `Body` or
`ChunkedBody` state, reject when `current_body_size + buffer + data`
exceeds `max_body_size` (via `check_would_exceed_limit`); in every other
state reject when `buffer + data` exceeds `max_body_size + 8192`.  The
buffer is extended only when no error is returned. -/
def RequestParser.addData (p : RequestParser) (data : List Char) : AddOut :=
  if p.state = .bodyPhase ∨ p.state = .chunkedBody then
    if p.maxBodySize < p.currentBodySize + (p.buffer.length + data.length) then
      ⟨p, some (wouldExceedMsg p.maxBodySize)⟩
    else ⟨{ p with buffer := p.buffer ++ data }, none⟩
  else
    if p.maxBodySize + 8192 < p.buffer.length + data.length then
      ⟨p, some (wouldExceedMsg p.maxBodySize)⟩
    else ⟨{ p with buffer := p.buffer ++ data }, none⟩

/-- `RequestParser::parse_request_line` applied to one extracted line (the
bytes before the first CRLF, already UTF-8 decoded; all inputs exercised
here are ASCII, where decoding is the identity), `http/parser.rs` lines
180-197: split on whitespace; at least two tokens; token 1 must parse as a
method, token 3 — when present — as a version, else the version defaults
to `HTTP/1.1`. -/
def parseRequestLineStr (line : List Char) : Except (List Char) Request :=
  let parts := splitWs line
  if parts.length < 2 then .error (bytes "Invalid request line format")
  else
    match Method.fromStr parts.head! with
    | none => .error (bytes "Invalid method")
    | some m =>
      let target := parts.get! 1
      if 3 ≤ parts.length then
        match Version.fromStr (parts.get! 2) with
        | none => .error (bytes "Invalid version")
        | some v => .ok (Request.new m target v)
      else .ok (Request.new m target .http11)

/-- Route configuration, `application/config/models.rs` `RouteConfig`. -/
structure Route where
  methods : List (List Char)
  filename : Option (List Char)
  directory : Option (List Char)
  defaultFile : Option (List Char)
  directoryListing : Bool
  uploadDir : Option (List Char)
  redirect : Option (List Char)
  cgiExtension : Option (List Char)
  deriving DecidableEq, Repr

/-- A route with no options set (serde defaults). -/
def Route.default : Route := ⟨[], none, none, none, false, none, none, none⟩

instance : Inhabited Route := ⟨Route.default⟩

/-- The loop body of `Router::match_route` lines 42-53: keep the entry with
the strictly longest key that is a plain string prefix of the path
(first-encountered wins on equal length, which cannot arise for distinct
keys that are both prefixes of the same path). -/
def bestPrefixEntry (path : List Char) :
    List (List Char × Route) → Option (List Char × Route) → Option (List Char × Route)
  | [], best => best
  | e :: rest, best =>
    bestPrefixEntry path rest
      (if List.isPrefixOf e.1 path then
        match best with
        | some b => if b.1.length < e.1.length then some e else some b
        | none => some e
      else best)

/-- `Router::match_route`, `application/handler/router.rs` lines 33-56:
exact key lookup first, else the longest plain-prefix key.  No boundary
alignment is checked. -/
def matchRoute (routes : List (List Char × Route)) (path : List Char) :
    Option Route :=
  match routes.find? (fun e => e.1 = path) with
  | some e => some e.2
  | none => (bestPrefixEntry path routes none).map (·.2)

/-- `Router::resolve_path`, router.rs lines 24-30: absolute or `./`-relative
strings are used verbatim, everything else is joined to the root. -/
def resolvePath (rootPath p : List Char) : List Char :=
  if p.head? = some '/' ∨ List.isPrefixOf (bytes "./") p then p
  else rootPath ++ ['/'] ++ p

/-- One `std::path::Component` of a relative path. -/
inductive PathComp where
  | cur
  | parent
  | normal (s : List Char)
  deriving DecidableEq, Repr

/-- Is this a `Normal` component? -/
def PathComp.isNormal : PathComp → Bool
  | .normal _ => true
  | _ => false

/-- The segment of a `Normal` component. -/
def PathComp.seg : PathComp → Option (List Char)
  | .normal s => some s
  | _ => none

/-- `Path::components` for the byte strings handled by `sanitize_path`:
split on the separator; empty segments disappear, `.` is `CurDir`, `..` is
`ParentDir`, the rest are `Normal`.  (Rust keeps a leading `CurDir` only;
the positions of `CurDir` components never matter below because they are
neither `ParentDir` nor `Normal`.) -/
def componentsOf (p : List Char) : List PathComp :=
  (List.splitOn '/' p).filterMap fun s =>
    if s = [] then none
    else if s = bytes "." then some .cur
    else if s = bytes ".." then some .parent
    else some (.normal s)

/-- `Router::sanitize_path`, router.rs lines 136-159: reject when any
component is `ParentDir`, else keep only the `Normal` components joined
with `/`. -/
def sanitizePath (p : List Char) : Except (List Char) (List Char) :=
  let comps := componentsOf p
  if comps.any (· = .parent) then
    .error (bytes "Path contains dot-dot - directory traversal attempt")
  else
    .ok ((['/'] : List Char).intercalate (comps.filterMap PathComp.seg))

/-- `Router::resolve_file_path`, router.rs lines 84-133.  `routes` is the
route table (used again to find the prefix to strip), `rootPath` the
canonicalized server root, `route` the matched route, `reqPath` the request
path. -/
def resolveFilePath (routes : List (List Char × Route)) (rootPath : List Char)
    (route : Route) (reqPath : List Char) : Except (List Char) (List Char) :=
  match route.filename with
  | some f => .ok (resolvePath rootPath f)
  | none =>
    match route.directory with
    | some d =>
      let routePath :=
        ((routes.find? fun e => List.isPrefixOf e.1 reqPath).map (·.1)).getD (bytes "/")
      let rel := if routePath.length < reqPath.length
        then reqPath.drop routePath.length else []
      let dirPath := resolvePath rootPath d
      if rel = [] then .ok dirPath
      else
        match sanitizePath rel with
        | .error e => .error e
        | .ok s => .ok (dirPath ++ ['/'] ++ s)
    | none =>
      let rel := if reqPath = bytes "/" then [] else reqPath.drop 1
      if rel = [] then .ok rootPath
      else
        match sanitizePath rel with
        | .error e => .error e
        | .ok s => .ok (rootPath ++ ['/'] ++ s)

/-- `common/time.rs` `Timeout`: a deadline instant (seconds). -/
structure Timeout where
  deadline : Nat
  deriving DecidableEq, Repr

/-- `Timeout::new`: `now + timeout_secs`.  `Timeout` exposes no mutator. -/
def Timeout.new (now secs : Nat) : Timeout := ⟨now + secs⟩

/-- `core/net/connection.rs` `ConnectionState`. -/
inductive ConnState where
  | reading | writing | closed
  deriving DecidableEq, Repr

/-- `core/net/connection.rs` `Connection` (the socket handle itself is not
modelled; it is only read from or written to). -/
structure Connection where
  readBuffer : List Char
  writeBuffer : List Char
  state : ConnState
  timeout : Timeout
  keepAlive : Bool
  serverPort : Option Nat
  deriving DecidableEq, Repr

/-- `Connection::with_port` called from `handle_listener_event`
(`server_manager.rs` line 354) with a hard-coded 30-second timeout. -/
def Connection.withPort (now : Nat) (secs : Nat) (port : Nat) : Connection :=
  ⟨[], [], .reading, Timeout.new now secs, false, some port⟩

/-- `Connection::should_keep_alive`, `core/net/connection.rs` lines 96-98:
`keep_alive && !write_buffer.is_empty()`. -/
def Connection.shouldKeepAlive (c : Connection) : Bool :=
  c.keepAlive && !(c.writeBuffer == [])

/-- Result of one `ServerManager::handle_write` call on a connection:
the connection afterwards and whether the parser was reset for reuse. -/
structure WriteStep where
  conn : Connection
  parserWasReset : Bool
  deriving DecidableEq, Repr

/-- `ServerManager::handle_write`, `server_manager.rs` lines 954-1028, on
the success path of the socket write: `n` is the byte count the socket
accepted.  An initially empty buffer flips the state to `Reading`.
Otherwise the written prefix is drained; once the buffer is empty the
connection is reset for keep-alive when `should_keep_alive()` holds and
closed otherwise (`close_connection_on_error` marks it `Closed` and drops
it from the table). -/
def handleWrite (c : Connection) (n : Nat) : WriteStep :=
  if c.writeBuffer = [] then ⟨{ c with state := .reading }, false⟩
  else
    let c1 : Connection := { c with writeBuffer := c.writeBuffer.drop n }
    if c1.writeBuffer = [] then
      if c1.shouldKeepAlive then
        ⟨{ c1 with state := .reading, readBuffer := [] }, true⟩
      else
        ⟨{ c1 with state := .closed }, false⟩
    else ⟨c1, false⟩

/-- `is_body_size_error`, `server_manager.rs` lines 1049-1059: the message
contains one of the two parser size patterns. -/
def isBodySizeError (msg : List Char) : Bool :=
  containsSeg (bytes "exceeds maximum allowed size") msg
    || containsSeg (bytes "would exceed maximum allowed size") msg

/-- Outcome of `RequestParser::parse` as observed by `handle_read`. -/
inductive ParseOutcome where
  | done (r : Request)
  | needMore
  | failed (msg : List Char)
  deriving DecidableEq, Repr

/-- Effect of `write_response_to_connection` (`server_manager.rs` lines
432-453) on the connection: record the keep-alive decision, append the
serialized response, switch to `Writing`. -/
def writeRespConn (c : Connection) (respBytes : List Char) (keepAlive : Bool) :
    Connection :=
  { c with keepAlive := keepAlive
           writeBuffer := c.writeBuffer ++ respBytes
           state := .writing }

/-- `ServerManager::handle_read`, `server_manager.rs` lines 497-558, as it
acts on one connection and its parser.  `data` is what the socket read
returned (empty models EOF).  The `RequestParser::parse` step and the
request dispatch are taken as parameters — `parseResult`/`p2` stand for
the outcome of `parse()` and the parser afterwards, `dispatchBytes` for the
serialized response `process_request` appends, `errPageBytes` for the
serialized 413 error page — because this model is used for claims about
the connection fields only, which no branch of the real code lets those
values influence beyond what is written below.  A 413 is sent with
keep-alive disabled; EOF and non-size errors close the connection. -/
def handleRead (c : Connection) (p : RequestParser) (data : List Char)
    (parseResult : ParseOutcome) (p2 : RequestParser)
    (dispatchBytes errPageBytes : List Char) : Connection × RequestParser :=
  if data = [] then ({ c with state := .closed }, p)
  else
    let a := p.addData data
    match a.err with
    | some _ => (writeRespConn c errPageBytes false, a.parser)
    | none =>
      match parseResult with
      | .done req => (writeRespConn c dispatchBytes req.shouldKeepAlive, p2)
      | .needMore => (c, p2)
      | .failed msg =>
        if isBodySizeError msg then (writeRespConn c errPageBytes false, p2)
        else ({ c with state := .closed }, p2)

/-- `std::io::ErrorKind` cases distinguished by the delete handler. -/
inductive IoKind where
  | permissionDenied
  | notFoundKind
  | otherKind
  deriving DecidableEq, Repr

/-- What the filesystem reports for the delete target: the three predicate
probes and the outcome `fs::remove_file` would produce (`none` = success). -/
structure FsView where
  pathExists : Bool
  isDir : Bool
  isFile : Bool
  removeResult : Option IoKind
  deriving DecidableEq, Repr

/-- `DeleteHandler::delete_file`, `delete_handler.rs` lines 23-65: 404 when
absent; 403 for a directory; 403 for a non-regular file; on removal — 200
with a fixed plain-text body, 403 on `PermissionDenied`, 404 on `NotFound`,
500 otherwise. -/
def deleteFile (fs : FsView) (v : Version) (date? : Option (List Char)) :
    Response :=
  if !fs.pathExists then Response.notFoundWithMessage v date? "File not found"
  else if fs.isDir then Response.forbiddenWithMessage v date? "Cannot delete directory"
  else if !fs.isFile then Response.forbiddenWithMessage v date? "Path is not a file"
  else
    match fs.removeResult with
    | none => Response.okWithMessage v date? "File deleted successfully"
    | some .permissionDenied => Response.forbiddenWithMessage v date? "Permission denied"
    | some .notFoundKind => Response.notFoundWithMessage v date? "File not found"
    | some .otherKind => Response.internalErrorWithMessage v date? "Failed to delete file"

/-- Is the four-byte separator `CRLF CRLF` at offset `i` of `o`?  Mirrors
the two slice comparisons in `parse_cgi_output`. -/
def sepAt (o : List Char) (i : Nat) : Bool :=
  (o.drop i).take 2 == crlfB && (o.drop (i + 2)).take 2 == crlfB

/-- The separator scan of `CgiIo::parse_cgi_output`, `cgi_io.rs` lines
54-62: `for i in 0..output.len().saturating_sub(4)` — the upper bound is
exclusive, so an offset whose separator ends the output is never tried. -/
def findHeaderEnd (o : List Char) : Option Nat :=
  (List.range (o.length - 4)).find? (sepAt o)

/-- Rust `str::lines`: split on LF, strip one trailing CR per line, and a
final empty segment (trailing newline) yields no extra line. -/
def strLines (s : List Char) : List (List Char) :=
  let segs := List.splitOn '\n' s
  let segs := if segs.getLast? = some [] then segs.dropLast else segs
  segs.map fun l => if l.getLast? = some (Char.ofNat 13) then l.dropLast else l

/-- Rust `str::parse::<u16>`: optional leading plus sign, one or more
decimal digits, value at most 65535. -/
def parseU16 (s : List Char) : Option Nat :=
  let t := if s.head? = some '+' then s.drop 1 else s
  if t = [] then none
  else if t.all Char.isDigit then
    let n := t.foldl (fun acc c => 10 * acc + (c.toNat - 48)) 0
    if n ≤ 65535 then some n else none
  else none

/-- `CgiIo::parse_status_header`, `cgi_io.rs` lines 104-116: trim, split on
whitespace, parse the first token as a `u16`, require 100 ≤ code ≤ 599
(`StatusCode::new`). -/
def parseStatusHeader (s : List Char) : Except (List Char) Nat :=
  match (splitWs (trimStr s)).head? with
  | none => .error (bytes "Empty Status header")
  | some tok =>
    match parseU16 tok with
    | none => .error (bytes "Invalid status code in Status header")
    | some code =>
      if 100 ≤ code ∧ code ≤ 599 then .ok code
      else .error (bytes "Invalid HTTP status code")

/-- `CgiIo::parse_cgi_output`, `cgi_io.rs` lines 51-101: find the header
separator (else `CgiError`); parse the bytes before it as header lines
(the UTF-8-lossy decode is the identity on the ASCII inputs exercised
here); the body is every byte after the separator; the status comes from a
`Status` header when present, else 200.  `Response::new` is built and its
default headers are then wholly replaced by the parsed CGI headers — the
`Status` header is not removed.  `date?` feeds the `Date` default header,
which the replacement immediately discards. -/
def parseCgiOutput (o : List Char) (date? : Option (List Char)) :
    Except (List Char) Response :=
  match findHeaderEnd o with
  | none => .error (bytes "CGI output missing header separator")
  | some headerEnd =>
    match headersFromLines (strLines (o.take headerEnd)) with
    | .error _ => .error (bytes "Failed to parse CGI headers")
    | .ok hs =>
      let bodyStart := headerEnd + 4
      let body := if bodyStart < o.length then o.drop bodyStart else []
      match headersGet hs (bytes "Status") with
      | some sv =>
        match parseStatusHeader sv with
        | .error e => .error e
        | .ok st =>
          .ok { Response.new .http11 st date? with headers := hs, body := body }
      | none =>
        .ok { Response.new .http11 200 date? with headers := hs, body := body }

/-- Boundary alignment as the spec defines it for prefix route matches:
the matched prefix equals the full path or the next path character is a
slash.  (Written from the spec; `match_route` itself never checks this.) -/
def boundaryAligned (routePath path : List Char) : Bool :=
  routePath == path || path.get? routePath.length == some '/'

/-- String-level being-beneath-a-root: equal to the root or an extension
across a path separator. -/
def isBeneathStr (rootPath p : List Char) : Bool :=
  p == rootPath || List.isPrefixOf (rootPath ++ ['/']) p

/-- The nine method literals accepted by `Method::from_str`. -/
def methodLits : List (List Char) :=
  [bytes "GET", bytes "POST", bytes "DELETE", bytes "PUT", bytes "PATCH",
   bytes "HEAD", bytes "OPTIONS", bytes "TRACE", bytes "CONNECT"]

/-- The three version literals accepted by `Version::from_str`. -/
def versionLits : List (List Char) :=
  [bytes "HTTP/0.9", bytes "HTTP/1.0", bytes "HTTP/1.1"]

/-- Number of header entries whose key matches `name` case-insensitively. -/
def headerKeyCount (h : Headers) (name : List Char) : Nat :=
  h.countP fun e => lowerStr e.1 == lowerStr name

/-- Delete-handler status predicted by claim C9 as stated: 404 when absent,
403 for directory or non-regular file, 200 on success, 403 on permission
denied, 500 on any other I/O failure. -/
def deleteClaimStatus (fs : FsView) : Nat :=
  if !fs.pathExists then 404
  else if fs.isDir then 403
  else if !fs.isFile then 403
  else
    match fs.removeResult with
    | none => 200
    | some .permissionDenied => 403
    | some _ => 500

/-- Fixture: a prefix route table containing only `/stat`. -/
def routesStat : List (List Char × Route) := [(bytes "/stat", Route.default)]

/-- Fixture: a filename route pointing outside the server root. -/
def routeOutside : Route :=
  { Route.default with filename := some (bytes "/outside/secret.txt") }

/-- Fixture: route table for the root-escape counterexample. -/
def routesOutside : List (List Char × Route) := [(bytes "/x", routeOutside)]

/-- Fixture: a 204 chunked response whose caller set a body anyway (the
`Response` fields are public in the source, so any such value is
constructible). -/
def resp204Chunked : Response :=
  ⟨.http11, 204, [(bytes "Transfer-Encoding", [bytes "chunked"])],
    bytes "SECRET", true⟩

/-- Fixture: CGI output whose `CRLF CRLF` separator ends the byte string. -/
def cgiOutTrailingSep : List Char := bytes "Content-Type: text/plain" ++ crlfB ++ crlfB

/-- Fixture: filesystem view where the file exists but vanishes between the
existence probe and `remove_file` (the remove reports `NotFound`). -/
def fsVanished : FsView := ⟨true, false, true, some .notFoundKind⟩

/-- Fixture: body-phase parser over cap for the C1 witness: cap 4, one byte
counted, two buffered. -/
def parserBody4 : RequestParser := ⟨.bodyPhase, bytes "ab", none, some 4, [], 4, 1⟩

/-- Fixture: a draining keep-alive connection for the C3 witness. -/
def connKeepAlive : Connection :=
  ⟨[], bytes "HTTP/1.1 200 OK", .writing, ⟨30⟩, true, some 8080⟩

/-- Fixture: connection accepted at instant 0 (deadline 30). -/
def connAt0 : Connection := Connection.withPort 0 30 8080

/-- Fixture: fresh parser with a 100-byte cap. -/
def parser100 : RequestParser := RequestParser.withMaxBodySize 100

/-- Fixture: request carrying `Connection: keep-alive, upgrade`. -/
def reqListConn : Request :=
  { Request.new .GET (bytes "/") .http11 with
    headers := [(bytes "Connection", [bytes "keep-alive, upgrade"])] }

/-- Fixture: HTTP/1.0 request without a `Connection` header. -/
def reqNoConn10 : Request := Request.new .GET (bytes "/") .http10

/-- Fixture: two-route table for the longest-prefix witness. -/
def routesAB : List (List Char × Route) :=
  [(bytes "/a", Route.default),
   (bytes "/ab", { Route.default with directoryListing := true })]

/-- Fixture: a 304 chunked response with a stale `Content-Length` entry and
a non-empty body, exercising every hypothesis of the C6 theorem. -/
def resp304W : Response :=
  ⟨.http11, 304, [(bytes "Content-Length", [bytes "6"])], bytes "SECRET", true⟩

/-- Fixture: a directory route for the C4 witness. -/
def routeDirFiles : Route := { Route.default with directory := some (bytes "files") }

/-- Fixture: route table for the C4 witness. -/
def routesDir : List (List Char × Route) := [(bytes "/d", routeDirFiles)]

/-- Fixture: CGI output `Status: 404 CRLF CRLF gone` for the C7 witness. -/
def cgiOutW : List Char := bytes "Status: 404" ++ crlfB ++ crlfB ++ bytes "gone"

/-- Fixture: the response `parse_cgi_output` produces for `cgiOutW`. -/
def respCgiW : Response :=
  ⟨.http11, 404, [(bytes "Status", [bytes "404"])], bytes "gone", false⟩

/-- Decidable equality for `Except`, used to evaluate the model on
concrete inputs. -/
instance {e a : Type} [DecidableEq e] [DecidableEq a] :
    DecidableEq (Except e a) := fun x y => by
  cases x <;> cases y <;>
    first
      | (apply isFalse; intro h; exact Except.noConfusion h)
      | (rename_i u v
         exact if h : u = v then isTrue (by rw [h]) else
           isFalse (fun hh => h (by cases hh; rfl)))

theorem status_setBody (r : Response) (b : List Char) :
    (r.setBody b).status = r.status := by
  by_cases hc : r.chunked = true <;>
    simp [Response.setBody, Response.setContentLength, hc]

theorem body_setBody (r : Response) (b : List Char) :
    (r.setBody b).body = b := by
  by_cases hc : r.chunked = true <;>
    simp [Response.setBody, Response.setContentLength, hc]

theorem status_new (v : Version) (st : Nat) (d : Option (List Char)) :
    (Response.new v st d).status = st := by
  unfold Response.new
  cases d <;> rfl

/-- Claim C1: once the parser is in a body phase (`Body` or `ChunkedBody`),
`add_data(data)` errors exactly when `current_body_size + buffer + data`
exceeds the configured cap, and on error the parser is unchanged (no bytes
appended); in every other state it errors exactly when `buffer + data`
exceeds `cap + 8192` (8 KiB header slack), again leaving the parser
unchanged on error. -/
theorem addData_size_enforcement (p : RequestParser) (data : List Char) :
    ((p.state = .bodyPhase ∨ p.state = .chunkedBody) →
      (((p.addData data).err.isSome = true ↔
          p.maxBodySize < p.currentBodySize + (p.buffer.length + data.length))
        ∧ ((p.addData data).err.isSome = true → (p.addData data).parser = p)))
    ∧ (¬(p.state = .bodyPhase ∨ p.state = .chunkedBody) →
      (((p.addData data).err.isSome = true ↔
          p.maxBodySize + 8192 < p.buffer.length + data.length)
        ∧ ((p.addData data).err.isSome = true → (p.addData data).parser = p))) := by
  unfold RequestParser.addData
  constructor
  · intro h
    rw [if_pos h]
    by_cases hlt : p.maxBodySize < p.currentBodySize + (p.buffer.length + data.length)
    · simp [hlt]
    · simp [hlt]
  · intro h
    rw [if_neg h]
    by_cases hlt : p.maxBodySize + 8192 < p.buffer.length + data.length
    · simp [hlt]
    · simp [hlt]

theorem addData_size_enforcement_witness :
    ((parserBody4.addData (bytes "cd")).err.isSome = true ↔
        parserBody4.maxBodySize <
          parserBody4.currentBodySize +
            (parserBody4.buffer.length + (bytes "cd").length))
      ∧ ((parserBody4.addData (bytes "cd")).err.isSome = true →
          (parserBody4.addData (bytes "cd")).parser = parserBody4) :=
  (addData_size_enforcement parserBody4 (bytes "cd")).1 (Or.inl rfl)

/-- Claim C3 (code bug): once `handle_write` has fully drained the write
buffer, the connection is closed and the parser is never reset — even when
`keep_alive` was requested — because `Connection::should_keep_alive`
computes `keep_alive && !write_buffer.is_empty()` and is consulted only
after the buffer is empty, making the keep-alive reset branch of
`handle_write` unreachable. -/
theorem handleWrite_closes_after_drain (c : Connection) (n : Nat)
    (h1 : c.writeBuffer ≠ []) (h2 : c.writeBuffer.length ≤ n) :
    (handleWrite c n).conn.state = .closed ∧
      (handleWrite c n).parserWasReset = false := by
  unfold handleWrite
  rw [if_neg h1]
  have hdrop : c.writeBuffer.drop n = [] := List.drop_eq_nil_of_le h2
  simp [Connection.shouldKeepAlive, hdrop]

theorem handleWrite_closes_after_drain_witness :
    (handleWrite connKeepAlive 100).conn.state = .closed ∧
      (handleWrite connKeepAlive 100).parserWasReset = false :=
  handleWrite_closes_after_drain connKeepAlive 100 (by decide) (by decide)

/-- Claim C8, amended: `handle_read` never touches the connection deadline
on any of its paths (EOF close, 413 error page, dispatch, need-more, parse
failure); the deadline stays at its creation value `accept_time + 30`
(`Connection::with_port` with the hard-coded 30-second timeout), and
neither `Connection` nor `Timeout` exposes any refresh operation. -/
theorem handleRead_timeout_frame :
    (∀ (c : Connection) (p : RequestParser) (data : List Char)
        (pr : ParseOutcome) (p2 : RequestParser) (db eb : List Char),
        ((handleRead c p data pr p2 db eb).1).timeout = c.timeout)
    ∧ ∀ (now port : Nat),
        (Connection.withPort now 30 port).timeout.deadline = now + 30 := by
  constructor
  · intro c p data pr p2 db eb
    unfold handleRead writeRespConn
    split
    · rfl
    · dsimp only
      split
      · rfl
      · split
        · rfl
        · rfl
        · split <;> rfl
  · intro now port
    rfl

/-- Claim C8 counterexample: a connection accepted at instant 0 has
deadline 30; after `handle_read` consumes one byte (a successful read of
`n = 1 > 0` happening at instant 5), the deadline is still 30, not the
claimed `5 + 30`. -/
theorem handleRead_no_refresh_counterexample :
    ((handleRead connAt0 parser100 (bytes "G") .needMore parser100 [] []).1.timeout.deadline
        = 30)
    ∧ (30 : Nat) ≠ 5 + 30 := by
  decide

/-- Claim C9, amended: DELETE outcomes are 404 when the target is absent,
403 for a directory, 403 for a non-regular file, 200 with the fixed
plain-text body on successful removal, 403 when removal reports
`PermissionDenied`, 404 (not 500) when removal reports `NotFound`, and 500
on any other removal failure. -/
theorem deleteFile_outcomes (fs : FsView) (v : Version) (d : Option (List Char)) :
    (fs.pathExists = false → (deleteFile fs v d).status = 404)
    ∧ (fs.pathExists = true → fs.isDir = true → (deleteFile fs v d).status = 403)
    ∧ (fs.pathExists = true → fs.isDir = false → fs.isFile = false →
        (deleteFile fs v d).status = 403)
    ∧ (fs.pathExists = true → fs.isDir = false → fs.isFile = true →
        fs.removeResult = none →
        (deleteFile fs v d).status = 200 ∧
          (deleteFile fs v d).body = bytes "File deleted successfully")
    ∧ (fs.pathExists = true → fs.isDir = false → fs.isFile = true →
        fs.removeResult = some .permissionDenied → (deleteFile fs v d).status = 403)
    ∧ (fs.pathExists = true → fs.isDir = false → fs.isFile = true →
        fs.removeResult = some .notFoundKind → (deleteFile fs v d).status = 404)
    ∧ (fs.pathExists = true → fs.isDir = false → fs.isFile = true →
        fs.removeResult = some .otherKind → (deleteFile fs v d).status = 500) := by
  refine ⟨?_, ?_, ?_, ?_, ?_, ?_, ?_⟩ <;>
    intros <;>
    simp_all [deleteFile, Response.notFoundWithMessage, Response.forbiddenWithMessage,
      Response.okWithMessage, Response.internalErrorWithMessage,
      Response.setBodyStr, status_setBody, body_setBody, status_new, bytes]

theorem deleteFile_outcomes_witness :
    (deleteFile fsVanished .http11 none).status = 404 :=
  (deleteFile_outcomes fsVanished .http11 none).2.2.2.2.2.1 rfl rfl rfl rfl

/-- Claim C9 counterexample: when the target exists as a regular file but
`remove_file` fails with `NotFound` (the file vanished in between), the
code answers 404 while the claim prescribes 500 for any I/O failure other
than permission denied. -/
theorem deleteFile_notfound_counterexample :
    (deleteFile fsVanished .http11 none).status = 404
      ∧ deleteClaimStatus fsVanished = 500 ∧ (404 : Nat) ≠ 500 := by
  decide

/-- Claim C10: `Request::should_keep_alive` returns `true` on an absent
`Connection` header exactly for HTTP/1.0 and HTTP/1.1 requests
(`Version::supports_keep_alive`), and with a `Connection` header present it
returns `true` exactly when the whole value equals `keep-alive`
ASCII-case-insensitively — so list values such as `keep-alive, upgrade`
disable keep-alive. -/
theorem shouldKeepAlive_rule (r : Request) :
    (r.connection = none →
      (r.shouldKeepAlive = true ↔ (r.version = .http10 ∨ r.version = .http11)))
    ∧ ∀ cv, r.connection = some cv →
        (r.shouldKeepAlive = true ↔ lowerStr cv = lowerStr (bytes "keep-alive")) := by
  constructor
  · intro h
    unfold Request.shouldKeepAlive
    rw [h]
    cases r.version <;> simp [Version.supportsKeepAlive]
  · intro cv h
    unfold Request.shouldKeepAlive
    rw [h]
    simp [eqIgnoreCase]

theorem shouldKeepAlive_rule_witness :
    reqListConn.shouldKeepAlive = false ∧ reqNoConn10.shouldKeepAlive = true := by
  constructor
  · have h := (shouldKeepAlive_rule reqListConn).2 (bytes "keep-alive, upgrade") (by decide)
    have hne : ¬ (lowerStr (bytes "keep-alive, upgrade") = lowerStr (bytes "keep-alive")) := by
      decide
    cases hb : reqListConn.shouldKeepAlive
    · rfl
    · exact absurd (h.mp hb) hne
  · have h := (shouldKeepAlive_rule reqNoConn10).1 (by decide)
    exact h.mpr (Or.inl rfl)

theorem methodFromStr_isSome (s : List Char) :
    (Method.fromStr s).isSome = true ↔ s ∈ methodLits := by
  unfold Method.fromStr
  split_ifs <;> simp_all [methodLits]

theorem versionFromStr_isSome (s : List Char) :
    (Version.fromStr s).isSome = true ↔ s ∈ versionLits := by
  unfold Version.fromStr
  split_ifs <;> simp_all [versionLits]

/-- Claim C5 counterexample: the request line `GET / HTTP/1.0` is accepted
with version HTTP/1.0 — `Version::from_str` accepts `HTTP/0.9`, `HTTP/1.0`
and `HTTP/1.1`, so a version token other than `HTTP/1.1` does not
necessarily yield a parse error as claimed. -/
theorem parseRequestLine_http10_counterexample :
    parseRequestLineStr (bytes "GET / HTTP/1.0")
        = .ok (Request.new .GET (bytes "/") .http10)
      ∧ Version.http10 ≠ Version.http11 := by
  decide

/-- Claim C5, amended: a request line (over the ASCII inputs where the
Rust UTF-8 decode and Unicode whitespace split coincide with this model)
is accepted iff it has at least two whitespace-separated tokens, the first
is one of the nine method literals, and the third — when present — is one
of the three version literals `HTTP/0.9`, `HTTP/1.0`, `HTTP/1.1`; a
missing version token defaults to HTTP/1.1 rather than erroring. -/
theorem parseRequestLine_validation (line : List Char) :
    ((∃ r, parseRequestLineStr line = .ok r) ↔
      (2 ≤ (splitWs line).length ∧ (splitWs line).head! ∈ methodLits ∧
        ((splitWs line).length ≤ 2 ∨ (splitWs line).get! 2 ∈ versionLits)))
    ∧ (∀ r, parseRequestLineStr line = .ok r →
        r.target = (splitWs line).get! 1
        ∧ ((splitWs line).length = 2 → r.version = .http11)
        ∧ (3 ≤ (splitWs line).length →
            Version.fromStr ((splitWs line).get! 2) = some r.version)) := by
  unfold parseRequestLineStr
  by_cases hlen : (splitWs line).length < 2
  · rw [if_pos hlen]
    constructor
    · constructor
      · rintro ⟨r, hr⟩
        exact absurd hr (by simp)
      · rintro ⟨h2, -⟩
        omega
    · intro r hr
      exact absurd hr (by simp)
  · rw [if_neg hlen]
    cases hm : Method.fromStr (splitWs line).head! with
    | none =>
      constructor
      · constructor
        · rintro ⟨r, hr⟩
          exact absurd hr (by simp)
        · rintro ⟨-, hmem, -⟩
          rw [← methodFromStr_isSome] at hmem
          rw [hm] at hmem
          simp at hmem
      · intro r hr
        exact absurd hr (by simp)
    | some m =>
      dsimp only
      have hmem : (splitWs line).head! ∈ methodLits := by
        rw [← methodFromStr_isSome, hm]
        rfl
      by_cases h3 : 3 ≤ (splitWs line).length
      · rw [if_pos h3]
        cases hv : Version.fromStr ((splitWs line).get! 2) with
        | none =>
          constructor
          · constructor
            · rintro ⟨r, hr⟩
              exact absurd hr (by simp)
            · rintro ⟨-, -, hdisj⟩
              rcases hdisj with hle | hvm
              · omega
              · rw [← versionFromStr_isSome, hv] at hvm
                simp at hvm
          · intro r hr
            exact absurd hr (by simp)
        | some v =>
          dsimp only
          constructor
          · constructor
            · intro _
              refine ⟨by omega, hmem, Or.inr ?_⟩
              rw [← versionFromStr_isSome, hv]
              rfl
            · intro _
              exact ⟨_, rfl⟩
          · intro r hr
            simp only [Except.ok.injEq] at hr
            subst hr
            refine ⟨rfl, ?_, ?_⟩
            · intro h2
              omega
            · intro _
              rfl
      · rw [if_neg h3]
        constructor
        · constructor
          · intro _
            exact ⟨by omega, hmem, Or.inl (by omega)⟩
          · intro _
            exact ⟨_, rfl⟩
        · intro r hr
          simp only [Except.ok.injEq] at hr
          subst hr
          refine ⟨rfl, fun _ => rfl, ?_⟩
          intro h
          omega

theorem parseRequestLine_validation_witness :
    (Request.new .GET (bytes "/ix") .http11).target
        = (splitWs (bytes "GET /ix HTTP/1.1")).get! 1
      ∧ ((splitWs (bytes "GET /ix HTTP/1.1")).length = 2 →
          (Request.new .GET (bytes "/ix") .http11).version = .http11)
      ∧ (3 ≤ (splitWs (bytes "GET /ix HTTP/1.1")).length →
          Version.fromStr ((splitWs (bytes "GET /ix HTTP/1.1")).get! 2)
            = some (Request.new .GET (bytes "/ix") .http11).version) :=
  (parseRequestLine_validation (bytes "GET /ix HTTP/1.1")).2
    (Request.new .GET (bytes "/ix") .http11) (by decide)

theorem containsSeg_of_decomp (seg l a b : List Char) (h : l = a ++ seg ++ b) :
    containsSeg seg l = true := by
  unfold containsSeg
  rw [List.any_eq_true]
  refine ⟨a.length, ?_, ?_⟩
  · rw [List.mem_range]
    subst h
    simp
    omega
  · subst h
    rw [List.append_assoc, List.drop_left]
    rw [List.isPrefixOf_iff_prefix]
    exact List.prefix_append seg b

theorem headerKeyCount_set_other (h : Headers) (n v m : List Char)
    (hne : (lowerStr n == lowerStr m) = false) :
    headerKeyCount (headersSet h n v) m = headerKeyCount h m := by
  induction h with
  | nil => simp [headersSet, headerKeyCount, List.countP_cons, hne]
  | cons e rest ih =>
    by_cases he : e.1 = n
    · subst he
      simp [headersSet, headerKeyCount, List.countP_cons, hne]
    · simp only [headersSet, if_neg he]
      simp [headerKeyCount, List.countP_cons] at ih ⊢
      omega

theorem contains_of_count_zero (h : Headers) (n : List Char)
    (hz : headerKeyCount h n = 0) : headersContains h n = false := by
  unfold headerKeyCount at hz
  rw [List.countP_eq_zero] at hz
  unfold headersContains
  rw [List.any_eq_false]
  intro e he
  exact fun hc => hz e he hc

theorem contains_remove_of_count_le_one (h : Headers) (n : List Char)
    (hle : headerKeyCount h n ≤ 1) :
    headersContains (headersRemove h n) n = false := by
  induction h with
  | nil => rfl
  | cons e rest ih =>
    unfold headerKeyCount at hle
    rw [List.countP_cons] at hle
    by_cases he : (lowerStr e.1 == lowerStr n) = true
    · simp only [headersRemove, if_pos he]
      apply contains_of_count_zero
      simp only [he, if_true] at hle
      unfold headerKeyCount
      omega
    · simp only [headersRemove, if_neg he]
      rw [Bool.not_eq_true] at he
      simp only [he, Bool.false_eq_true, if_false] at hle
      have hres := ih (by unfold headerKeyCount; omega)
      unfold headersContains at hres ⊢
      rw [List.any_cons, hres, he]
      rfl

/-- Claim C6 counterexample: a 204 response serialized in chunked mode
still carries the caller-set body bytes — `serialize_chunked` emits any
non-empty body with no status check, so body suppression for
{1xx, 204, 304} does not hold in chunked serialization. -/
theorem serializeChunked_body_counterexample :
    containsSeg (bytes "SECRET") (serializeChunkedResp resp204Chunked) = true
      ∧ allowsBody 204 = false ∧ resp204Chunked.chunked = true
      ∧ resp204Chunked.status = 204 := by
  decide

/-- Claim C6, amended: body suppression for statuses in {1xx, 204, 304}
holds in sized serialization (`serialize` emits exactly what it would for
an empty body); chunked serialization emits any non-empty body regardless
of status; and chunked framing excludes `Content-Length` through the API —
`set_chunked` removes the `Content-Length` entry (unique entries; the map
holds at most one) and `set_body` never touches headers while `chunked`
is set. -/
theorem serializer_framing (r : Response) (b : List Char) :
    (allowsBody r.status = false → serializeResp r = serializeResp { r with body := [] })
    ∧ (r.body ≠ [] → containsSeg r.body (serializeChunkedResp r) = true)
    ∧ (headerKeyCount r.headers (bytes "Content-Length") ≤ 1 →
        headersContains r.setChunked.headers (bytes "Content-Length") = false)
    ∧ (r.chunked = true → (r.setBody b).headers = r.headers) := by
  refine ⟨?_, ?_, ?_, ?_⟩
  · intro h
    simp [serializeResp, Response.hasBody, statusLine, h]
  · intro h
    apply containsSeg_of_decomp r.body (serializeChunkedResp r)
      (statusLine r ++ headersRender r.headers ++ crlfB
        ++ hexStr r.body.length ++ crlfB)
      (crlfB ++ ['0'] ++ crlfB ++ crlfB)
    simp [serializeChunkedResp, h, List.append_assoc]
  · intro h
    unfold Response.setChunked
    apply contains_remove_of_count_le_one
    rw [headerKeyCount_set_other _ _ _ _ (by decide)]
    exact h
  · intro h
    simp [Response.setBody, h]

theorem serializer_framing_witness :
    (serializeResp resp304W = serializeResp { resp304W with body := [] })
    ∧ containsSeg resp304W.body (serializeChunkedResp resp304W) = true
    ∧ headersContains resp304W.setChunked.headers (bytes "Content-Length") = false
    ∧ (resp304W.setBody (bytes "x")).headers = resp304W.headers := by
  have h := serializer_framing resp304W (bytes "x")
  exact ⟨h.1 (by decide), h.2.1 (by decide), h.2.2.1 (by decide), h.2.2.2 rfl⟩

theorem bestPrefixEntry_cons (path : List Char) (e : List Char × Route)
    (rest : List (List Char × Route)) (acc : Option (List Char × Route)) :
    bestPrefixEntry path (e :: rest) acc
      = bestPrefixEntry path rest
          (if List.isPrefixOf e.1 path then
            match acc with
            | some b => if b.1.length < e.1.length then some e else some b
            | none => some e
          else acc) := rfl

theorem bestPrefixEntry_none_iff (path : List Char) :
    ∀ (l : List (List Char × Route)) (acc : Option (List Char × Route)),
      (bestPrefixEntry path l acc = none ↔
        (acc = none ∧ ∀ e ∈ l, List.isPrefixOf e.1 path = false)) := by
  intro l
  induction l with
  | nil =>
    intro acc
    simp [bestPrefixEntry]
  | cons e rest ih =>
    intro acc
    rw [bestPrefixEntry_cons]
    by_cases hp : List.isPrefixOf e.1 path = true
    · rw [if_pos hp]
      cases acc with
      | none =>
        rw [ih]
        simp [hp]
      | some c =>
        by_cases hlt : c.1.length < e.1.length
        · simp only [hlt, if_true]
          rw [ih]
          simp [hp]
        · simp only [hlt, if_false]
          rw [ih]
          simp [hp]
    · rw [if_neg hp, ih]
      rw [Bool.not_eq_true] at hp
      constructor
      · rintro ⟨h1, h2⟩
        refine ⟨h1, ?_⟩
        intro x hx
        rcases List.mem_cons.mp hx with hx | hx
        · subst hx; exact hp
        · exact h2 x hx
      · rintro ⟨h1, h2⟩
        exact ⟨h1, fun x hx => h2 x (List.mem_cons_of_mem e hx)⟩

theorem bestPrefixEntry_sound (path : List Char) :
    ∀ (l : List (List Char × Route)) (acc : Option (List Char × Route)),
      (∀ a, acc = some a → List.isPrefixOf a.1 path = true) →
      ∀ b, bestPrefixEntry path l acc = some b →
        (b ∈ l ∨ acc = some b) ∧ List.isPrefixOf b.1 path = true := by
  intro l
  induction l with
  | nil =>
    intro acc hacc b hb
    simp [bestPrefixEntry] at hb
    exact ⟨Or.inr hb, hacc b hb⟩
  | cons e rest ih =>
    intro acc hacc b hb
    rw [bestPrefixEntry_cons] at hb
    by_cases hp : List.isPrefixOf e.1 path = true
    · rw [if_pos hp] at hb
      cases acc with
      | none =>
        rcases ih (some e) (fun a ha => by cases ha; exact hp) b hb with ⟨hmem, hpre⟩
        refine ⟨?_, hpre⟩
        rcases hmem with hmem | hmem
        · exact Or.inl (List.mem_cons_of_mem e hmem)
        · cases hmem; exact Or.inl (List.mem_cons_self e rest)
      | some c =>
        by_cases hlt : c.1.length < e.1.length
        · simp only [hlt, if_true] at hb
          rcases ih (some e) (fun a ha => by cases ha; exact hp) b hb with ⟨hmem, hpre⟩
          refine ⟨?_, hpre⟩
          rcases hmem with hmem | hmem
          · exact Or.inl (List.mem_cons_of_mem e hmem)
          · cases hmem; exact Or.inl (List.mem_cons_self e rest)
        · simp only [hlt, if_false] at hb
          rcases ih (some c) (fun a ha => by cases ha; exact hacc c rfl) b hb with ⟨hmem, hpre⟩
          refine ⟨?_, hpre⟩
          rcases hmem with hmem | hmem
          · exact Or.inl (List.mem_cons_of_mem e hmem)
          · cases hmem; exact Or.inr rfl
    · rw [if_neg hp] at hb
      rcases ih acc hacc b hb with ⟨hmem, hpre⟩
      refine ⟨?_, hpre⟩
      rcases hmem with hmem | hmem
      · exact Or.inl (List.mem_cons_of_mem e hmem)
      · exact Or.inr hmem

theorem bestPrefixEntry_max (path : List Char) :
    ∀ (l : List (List Char × Route)) (acc : Option (List Char × Route))
      (b : List Char × Route),
      bestPrefixEntry path l acc = some b →
        (∀ e ∈ l, List.isPrefixOf e.1 path = true → e.1.length ≤ b.1.length)
        ∧ (∀ a, acc = some a → a.1.length ≤ b.1.length) := by
  intro l
  induction l with
  | nil =>
    intro acc b hb
    simp [bestPrefixEntry] at hb
    subst hb
    exact ⟨by simp, fun a ha => by cases ha; exact Nat.le_refl _⟩
  | cons e rest ih =>
    intro acc b hb
    rw [bestPrefixEntry_cons] at hb
    by_cases hp : List.isPrefixOf e.1 path = true
    · rw [if_pos hp] at hb
      cases acc with
      | none =>
        rcases ih (some e) b hb with ⟨hrest, hacc⟩
        have hebound : e.1.length ≤ b.1.length := hacc e rfl
        refine ⟨?_, by intro a ha; cases ha⟩
        intro x hx hxp
        rcases List.mem_cons.mp hx with hx | hx
        · subst hx; exact hebound
        · exact hrest x hx hxp
      | some c =>
        by_cases hlt : c.1.length < e.1.length
        · simp only [hlt, if_true] at hb
          rcases ih (some e) b hb with ⟨hrest, hacc⟩
          have hebound : e.1.length ≤ b.1.length := hacc e rfl
          refine ⟨?_, ?_⟩
          · intro x hx hxp
            rcases List.mem_cons.mp hx with hx | hx
            · subst hx; exact hebound
            · exact hrest x hx hxp
          · intro a ha
            cases ha
            omega
        · simp only [hlt, if_false] at hb
          rcases ih (some c) b hb with ⟨hrest, hacc⟩
          have hcbound : c.1.length ≤ b.1.length := hacc c rfl
          refine ⟨?_, ?_⟩
          · intro x hx hxp
            rcases List.mem_cons.mp hx with hx | hx
            · subst hx; omega
            · exact hrest x hx hxp
          · intro a ha
            cases ha
            exact hcbound
    · rw [if_neg hp] at hb
      rcases ih acc b hb with ⟨hrest, hacc⟩
      refine ⟨?_, hacc⟩
      intro x hx hxp
      rcases List.mem_cons.mp hx with hx | hx
      · subst hx
        rw [hxp] at hp
        simp at hp
      · exact hrest x hx hxp

/-- Claim C2 counterexample: with the single route `/stat`, the request
path `/static` is matched to that route by `match_route` even though the
prefix is not boundary-aligned (the next path character is `t`, not `/`)
and the match is not exact — the code uses a plain `starts_with` test. -/
theorem matchRoute_boundary_counterexample :
    matchRoute routesStat (bytes "/static") = some Route.default
      ∧ List.isPrefixOf (bytes "/stat") (bytes "/static") = true
      ∧ boundaryAligned (bytes "/stat") (bytes "/static") = false
      ∧ bytes "/stat" ≠ bytes "/static" := by
  decide

/-- Claim C2, amended: `match_route` returns the route under the exact
path key when one exists; otherwise it returns a route registered under
the longest route-path key that is a plain string prefix of the request
path, with no boundary-alignment requirement; when no key is a prefix of
the path it returns nothing (the engine maps this to 404). -/
theorem matchRoute_characterization (routes : List (List Char × Route))
    (path : List Char) :
    (∀ e, routes.find? (fun e => e.1 = path) = some e →
        matchRoute routes path = some e.2)
    ∧ (matchRoute routes path = none ↔
        ∀ e ∈ routes, List.isPrefixOf e.1 path = false)
    ∧ (routes.find? (fun e => e.1 = path) = none →
        ∀ r, matchRoute routes path = some r →
          ∃ k, (k, r) ∈ routes ∧ List.isPrefixOf k path = true ∧
            ∀ e ∈ routes, List.isPrefixOf e.1 path = true →
              e.1.length ≤ k.length) := by
  refine ⟨?_, ?_, ?_⟩
  · intro e he
    unfold matchRoute
    rw [he]
  · unfold matchRoute
    cases hf : routes.find? (fun e => e.1 = path) with
    | some e =>
      have hpred := List.find?_some hf
      have hmem := List.mem_of_find?_eq_some hf
      have hekey : e.1 = path := by simpa using hpred
      constructor
      · intro hcontra
        exact absurd hcontra (by simp)
      · intro hall
        have := hall e hmem
        rw [hekey] at this
        rw [show List.isPrefixOf path path = true from by
          rw [List.isPrefixOf_iff_prefix]] at this
        cases this
    | none =>
      dsimp only
      rw [Option.map_eq_none']
      rw [bestPrefixEntry_none_iff]
      simp
  · intro hf r hr
    unfold matchRoute at hr
    rw [hf] at hr
    dsimp only at hr
    rw [Option.map_eq_some'] at hr
    rcases hr with ⟨b, hb, hbr⟩
    rcases bestPrefixEntry_sound path routes none (by intro a ha; cases ha) b hb with
      ⟨hmem, hpre⟩
    rcases bestPrefixEntry_max path routes none b hb with ⟨hmax, -⟩
    rcases hmem with hmem | hmem
    · refine ⟨b.1, ?_, hpre, hmax⟩
      rw [← hbr]
      exact hmem
    · cases hmem

theorem matchRoute_characterization_witness :
    ∃ k, (k, { Route.default with directoryListing := true }) ∈ routesAB
      ∧ List.isPrefixOf k (bytes "/abc") = true
      ∧ ∀ e ∈ routesAB, List.isPrefixOf e.1 (bytes "/abc") = true →
          e.1.length ≤ k.length :=
  (matchRoute_characterization routesAB (bytes "/abc")).2.2 (by decide)
    { Route.default with directoryListing := true } (by decide)

theorem find?_range_first {p : Nat → Bool} :
    ∀ {n i : Nat}, (List.range n).find? p = some i →
      i < n ∧ p i = true ∧ ∀ j < i, p j = false := by
  intro n
  induction n with
  | zero => intro i h; simp at h
  | succ m ih =>
    intro i h
    rw [List.range_succ, List.find?_append] at h
    cases hm : (List.range m).find? p with
    | some k =>
      rw [hm] at h
      simp at h
      subst h
      rcases ih hm with ⟨h1, h2, h3⟩
      exact ⟨by omega, h2, h3⟩
    | none =>
      rw [hm] at h
      simp at h
      rcases h with ⟨hp, hi⟩
      subst hi
      have hall := List.find?_eq_none.mp hm
      refine ⟨by omega, hp, ?_⟩
      intro j hj
      have := hall j (by rw [List.mem_range]; omega)
      simpa using this

/-- Claim C7 counterexample: CGI output `Content-Type: text/plain CRLF CRLF`
carries a header separator that ends the output, yet `parse_cgi_output`
reports the separator missing — its scan runs `i` over
`0..len.saturating_sub(4)` with an exclusive bound, so a separator at the
final offset (an empty response body) is never found. -/
theorem parseCgiOutput_trailing_sep_counterexample :
    parseCgiOutput cgiOutTrailingSep none
        = .error (bytes "CGI output missing header separator")
      ∧ ∃ i, sepAt cgiOutTrailingSep i = true ∧ i + 4 = cgiOutTrailingSep.length := by
  constructor
  · decide
  · exact ⟨24, by decide, by decide⟩

/-- Claim C7, amended: the parser locates the first `CRLF CRLF` separator
that is followed by at least one further byte (a separator ending the
output is never found, so a missing — or final-position — separator yields
`CgiError`); on success the body is exactly the bytes after the separator,
the parsed headers are propagated to the response verbatim with the
`Status` header retained (not removed), and the status is the code of a
`Status` header when present, else 200. -/
theorem parseCgiOutput_characterization (o : List Char) (d : Option (List Char)) :
    (findHeaderEnd o = none →
        parseCgiOutput o d = .error (bytes "CGI output missing header separator"))
    ∧ ∀ i, findHeaderEnd o = some i →
        (sepAt o i = true ∧ i + 4 < o.length ∧ (∀ j < i, sepAt o j = false))
        ∧ ∀ r, parseCgiOutput o d = .ok r →
            r.body = o.drop (i + 4)
            ∧ ∃ hs, headersFromLines (strLines (o.take i)) = .ok hs
                ∧ r.headers = hs
                ∧ ((headersGet hs (bytes "Status") = none ∧ r.status = 200)
                   ∨ ∃ sv, headersGet hs (bytes "Status") = some sv
                        ∧ parseStatusHeader sv = .ok r.status) := by
  constructor
  · intro h
    unfold parseCgiOutput
    rw [h]
  · intro i hi
    have hrange := find?_range_first hi
    have hbound : i + 4 < o.length := by omega
    refine ⟨⟨hrange.2.1, hbound, hrange.2.2⟩, ?_⟩
    intro r hr
    unfold parseCgiOutput at hr
    rw [hi] at hr
    dsimp only at hr
    cases hfl : headersFromLines (strLines (o.take i)) with
    | error e =>
      rw [hfl] at hr
      exact absurd hr (by simp)
    | ok hs =>
      rw [hfl] at hr
      dsimp only at hr
      cases hst : headersGet hs (bytes "Status") with
      | none =>
        rw [hst] at hr
        simp only [Except.ok.injEq] at hr
        subst hr
        refine ⟨?_, hs, rfl, rfl, Or.inl ⟨hst, ?_⟩⟩
        · simp only [if_pos hbound]
        · have := status_new Version.http11 200 d
          simpa using this
      | some sv =>
        rw [hst] at hr
        dsimp only at hr
        cases hps : parseStatusHeader sv with
        | error e =>
          rw [hps] at hr
          exact absurd hr (by simp)
        | ok st =>
          rw [hps] at hr
          simp only [Except.ok.injEq] at hr
          subst hr
          refine ⟨?_, hs, rfl, rfl, Or.inr ⟨sv, hst, ?_⟩⟩
          · simp only [if_pos hbound]
          · simpa only [status_new] using hps

theorem parseCgiOutput_characterization_witness :
    respCgiW.body = cgiOutW.drop (11 + 4)
    ∧ ∃ hs, headersFromLines (strLines (cgiOutW.take 11)) = .ok hs
        ∧ respCgiW.headers = hs
        ∧ ((headersGet hs (bytes "Status") = none ∧ respCgiW.status = 200)
           ∨ ∃ sv, headersGet hs (bytes "Status") = some sv
                ∧ parseStatusHeader sv = .ok respCgiW.status) :=
  ((parseCgiOutput_characterization cgiOutW none).2 11 (by decide)).2 respCgiW (by decide)

theorem splitOnP_sep_false {p : Char → Bool} :
    ∀ (l s : List Char), s ∈ List.splitOnP p l → ∀ a ∈ s, p a = false := by
  intro l
  induction l with
  | nil =>
    intro s hs a ha
    rw [List.splitOnP_nil] at hs
    simp at hs
    subst hs
    simp at ha
  | cons x xs ih =>
    intro s hs a ha
    rw [List.splitOnP_cons] at hs
    by_cases hx : p x = true
    · rw [if_pos hx] at hs
      rcases List.mem_cons.mp hs with hs | hs
      · subst hs; simp at ha
      · exact ih s hs a ha
    · rw [if_neg hx] at hs
      cases hsp : List.splitOnP p xs with
      | nil => exact absurd hsp (List.splitOnP_ne_nil p xs)
      | cons hd tl =>
        rw [hsp] at hs
        rw [List.modifyHead_cons] at hs
        rcases List.mem_cons.mp hs with hs | hs
        · subst hs
          rcases List.mem_cons.mp ha with ha | ha
          · subst ha
            exact Bool.not_eq_true _ ▸ hx
          · exact ih hd (by rw [hsp]; exact List.mem_cons_self hd tl) a ha
        · exact ih s (by rw [hsp]; exact List.mem_cons_of_mem hd hs) a ha

theorem splitOn_slash_no_sep :
    ∀ (l s : List Char), s ∈ List.splitOn '/' l → '/' ∉ s := by
  intro l s hs hmem
  have := splitOnP_sep_false (p := fun c => c == '/') l s hs '/' hmem
  simp at this

theorem filterMap_all_some {α β : Type} (f : α → Option β) (g : α → β) :
    ∀ (xs : List α), (∀ u ∈ xs, f u = some (g u)) →
      xs.filterMap f = xs.map g := by
  intro xs
  induction xs with
  | nil => intro _; rfl
  | cons x rest ih =>
    intro h
    rw [List.filterMap_cons, h x (List.mem_cons_self x rest), List.map_cons]
    rw [ih fun u hu => h u (List.mem_cons_of_mem x hu)]

theorem sanitize_ok_normal (rel s : List Char)
    (h : sanitizePath rel = .ok s) :
    (componentsOf s).all PathComp.isNormal = true := by
  unfold sanitizePath at h
  by_cases hpar : (componentsOf rel).any (· = .parent) = true
  · rw [if_pos hpar] at h
    exact absurd h (by simp)
  · rw [if_neg hpar] at h
    simp only [Except.ok.injEq] at h
    subst h
    cases hsegs : (componentsOf rel).filterMap PathComp.seg with
    | nil =>
      simp [List.intercalate, componentsOf, List.splitOn_nil]
    | cons t ts =>
      have hprops : ∀ u ∈ (componentsOf rel).filterMap PathComp.seg,
          u ≠ [] ∧ u ≠ bytes "." ∧ u ≠ bytes ".." ∧ '/' ∉ u := by
        intro u hu
        rw [List.mem_filterMap] at hu
        rcases hu with ⟨c, hc, hcu⟩
        cases c with
        | cur => exact absurd hcu (by simp [PathComp.seg])
        | parent => exact absurd hcu (by simp [PathComp.seg])
        | normal w =>
          simp only [PathComp.seg, Option.some.injEq] at hcu
          subst hcu
          unfold componentsOf at hc
          rw [List.mem_filterMap] at hc
          rcases hc with ⟨w0, hw0, hne⟩
          by_cases h1 : w0 = []
          · rw [if_pos h1] at hne; cases hne
          · rw [if_neg h1] at hne
            by_cases h2 : w0 = bytes "."
            · rw [if_pos h2] at hne; cases hne
            · rw [if_neg h2] at hne
              by_cases h3 : w0 = bytes ".."
              · rw [if_pos h3] at hne; cases hne
              · rw [if_neg h3] at hne
                simp only [Option.some.injEq, PathComp.normal.injEq] at hne
                subst hne
                exact ⟨h1, h2, h3, splitOn_slash_no_sep rel w0 hw0⟩
      rw [hsegs] at hprops
      have hsplit : List.splitOn '/'
          ((['/'] : List Char).intercalate (t :: ts)) = t :: ts := by
        apply List.splitOn_intercalate
        · intro u hu
          exact (hprops u hu).2.2.2
        · simp
      unfold componentsOf
      rw [hsplit]
      rw [filterMap_all_some _ PathComp.normal]
      · rw [List.all_eq_true]
        intro c hc
        rw [List.mem_map] at hc
        rcases hc with ⟨u, -, hu⟩
        subst hu
        rfl
      · intro u hu
        rcases hprops u hu with ⟨h1, h2, h3, -⟩
        rw [if_neg h1, if_neg h2, if_neg h3]

theorem parent_comp_iff (u : List Char) :
    ((if u = [] then none
      else if u = bytes "." then some PathComp.cur
      else if u = bytes ".." then some PathComp.parent
      else some (PathComp.normal u)) = some PathComp.parent) ↔ u = bytes ".." := by
  split_ifs with h1 h2 h3
  · subst h1
    constructor
    · intro h; cases h
    · intro h; exact absurd h (by decide)
  · subst h2
    constructor
    · intro h; cases h
    · intro h; exact absurd h (by decide)
  · subst h3
    simp
  · constructor
    · intro h; simp at h
    · intro h; exact absurd h h3

theorem joinCase (base rel2 p : List Char)
    (h : (if rel2 = [] then Except.ok base
          else match sanitizePath rel2 with
            | .error e => .error e
            | .ok s => .ok (base ++ ['/'] ++ s)) = Except.ok p) :
    p = base ∨ ∃ s, p = base ++ ['/'] ++ s
        ∧ (componentsOf s).all PathComp.isNormal = true := by
  by_cases hrel : rel2 = []
  · rw [if_pos hrel] at h
    simp only [Except.ok.injEq] at h
    exact Or.inl h.symm
  · rw [if_neg hrel] at h
    cases hs : sanitizePath rel2 with
    | error e =>
      rw [hs] at h
      exact absurd h (by simp)
    | ok s =>
      rw [hs] at h
      simp only [Except.ok.injEq] at h
      exact Or.inr ⟨s, h.symm, sanitize_ok_normal _ s hs⟩

/-- Claim C4 counterexample: a route whose configured `filename` is the
absolute path `/outside/secret.txt` resolves to that path verbatim —
neither rejected nor beneath the canonicalized server root `/srv/www`;
no prefix check against the root is performed anywhere in resolution. -/
theorem resolveFilePath_escape_counterexample :
    resolveFilePath routesOutside (bytes "/srv/www") routeOutside (bytes "/x")
        = .ok (bytes "/outside/secret.txt")
      ∧ isBeneathStr (bytes "/srv/www") (bytes "/outside/secret.txt") = false := by
  constructor
  · decide
  · decide

/-- Claim C4, amended: `sanitize_path` errors exactly when the remainder
contains a `..` segment (the error propagates upward and the engine closes
the connection; it is not mapped to 403/404), and otherwise keeps only the
normal segments; for directory routes and the server-root default the
resolved path is the configured base or that base extended across `/` by a
sanitized remainder whose components are all normal — a lexical
beneath-base guarantee.  No runtime prefix check against the canonicalized
root exists, and `filename` routes resolve to the configured name verbatim
(an absolute filename may lie outside the root). -/
theorem resolveFilePath_traversal_safety (rel : List Char)
    (routes : List (List Char × Route)) (rootPath : List Char) (route : Route)
    (reqPath p : List Char) :
    ((∃ e, sanitizePath rel = .error e) ↔ bytes ".." ∈ List.splitOn '/' rel)
    ∧ (route.filename = none →
        resolveFilePath routes rootPath route reqPath = .ok p →
        (match route.directory with
          | some d =>
            p = resolvePath rootPath d
            ∨ ∃ s, p = resolvePath rootPath d ++ ['/'] ++ s
                ∧ (componentsOf s).all PathComp.isNormal = true
          | none =>
            p = rootPath
            ∨ ∃ s, p = rootPath ++ ['/'] ++ s
                ∧ (componentsOf s).all PathComp.isNormal = true)) := by
  constructor
  · have hiff : (componentsOf rel).any (· = .parent) = true ↔
        bytes ".." ∈ List.splitOn '/' rel := by
      rw [List.any_eq_true]
      constructor
      · rintro ⟨c, hc, hcp⟩
        have hcc : c = PathComp.parent := by simpa using hcp
        subst hcc
        unfold componentsOf at hc
        rw [List.mem_filterMap] at hc
        rcases hc with ⟨u, hu, hfu⟩
        rw [parent_comp_iff] at hfu
        subst hfu
        exact hu
      · intro hmem
        refine ⟨PathComp.parent, ?_, by simp⟩
        unfold componentsOf
        rw [List.mem_filterMap]
        exact ⟨bytes "..", hmem, (parent_comp_iff _).mpr rfl⟩
    unfold sanitizePath
    by_cases hpar : (componentsOf rel).any (· = .parent) = true
    · rw [if_pos hpar]
      simp only [hiff.mp hpar, iff_true]
      exact ⟨_, rfl⟩
    · rw [if_neg hpar]
      constructor
      · rintro ⟨e, he⟩
        exact absurd he (by simp)
      · intro hmem
        exact absurd (hiff.mpr hmem) hpar
  · intro hfn hres
    unfold resolveFilePath at hres
    rw [hfn] at hres
    cases hdir : route.directory with
    | some dd =>
      rw [hdir] at hres
      dsimp only at hres
      exact joinCase _ _ p hres
    | none =>
      rw [hdir] at hres
      dsimp only at hres
      exact joinCase _ _ p hres

theorem resolveFilePath_traversal_safety_witness :
    (match routeDirFiles.directory with
      | some d =>
        bytes "/root/files/a/b" = resolvePath (bytes "/root") d
        ∨ ∃ s, bytes "/root/files/a/b" = resolvePath (bytes "/root") d ++ ['/'] ++ s
            ∧ (componentsOf s).all PathComp.isNormal = true
      | none =>
        bytes "/root/files/a/b" = bytes "/root"
        ∨ ∃ s, bytes "/root/files/a/b" = bytes "/root" ++ ['/'] ++ s
            ∧ (componentsOf s).all PathComp.isNormal = true) :=
  (resolveFilePath_traversal_safety (bytes "x") routesDir (bytes "/root")
      routeDirFiles (bytes "/d/a/b") (bytes "/root/files/a/b")).2 rfl (by decide)
